import Mathlib

/-!
Shallow embedding of `textattack/transformations/word_insertions/word_insertion_masked_lm.py`
(`WordInsertionMaskedLM`), the masked-language-model-guided word-insertion
transformation, together with the parts of its collaborators the verification
needs.  External collaborators (the HuggingFace tokenizer, the masked language
model, `torch.softmax`, `textattack.shared.utils`) are modelled as parameters:
uninterpreted functions carried in the instance record, exactly at the
interface the source uses.  Machine reals (the probability tensor) are
modelled as rationals; the tensor batch dimension (always 1 in the source) is
dropped.  Fallible Python operations are modelled with `Except`.
-/

set_option autoImplicit false

namespace WordInsertionMaskedLMSpec

/-- Python exceptions that the modelled code can raise. -/
inductive PyErr where
  | typeError
  | indexError
  | valueError
  | attributeError
deriving DecidableEq, Repr

/-- Modelled from the spec: `AttackedText` wraps an ordered sequence of words
(the rest of the AttackedText class is not under `src/`; only its caller is). -/
structure AttackedText where
  words : List String
deriving DecidableEq, Repr

/-- Modelled from the spec: the `text` property reconstructs the surface string
from the word sequence. -/
def AttackedText.text (t : AttackedText) : String :=
  String.intercalate " " t.words

/-- Modelled from the spec: `insert_text_before_word_index(i, text)` returns a
NEW `AttackedText` with the given text inserted before word index `i`; the
receiver is not changed. -/
def insert_text_before_word_index (t : AttackedText) (i : Nat) (s : String) : AttackedText :=
  ⟨t.words.take i ++ [s] ++ t.words.drop i⟩

/-- The slice of the HuggingFace `AutoTokenizer` interface the source uses:
mask/pad tokens and raw tokenization (`encode_plus` before truncation and
padding, which the source configures explicitly and we model explicitly). -/
structure LMTokenizer where
  mask_token : String
  mask_token_id : Nat
  pad_token_id : Nat
  tokenize : String → List Nat
  convert_ids_to_tokens : Nat → String

/-- The state of one `WordInsertionMaskedLM` instance as `_get_new_words` uses
it, plus the external library functions it calls (`torch.softmax`,
`utils.is_one_word`, `utils.check_if_subword`; `utils` is not under `src/`).
`language_model` maps encoded input ids to per-position logit rows. -/
structure WIMLM where
  lm_tokenizer : LMTokenizer
  language_model : List Nat → List (List ℚ)
  masked_lm_name : String
  max_length : Nat
  max_candidates : Nat
  min_confidence : ℚ
  softmax : List ℚ → List ℚ
  is_one_word : String → Bool
  check_if_subword : String → String → Bool

/-- Source `_encode_text` (lines 50-64): `encode_plus` with `truncation=True`
and `padding="max_length"` truncates the token ids to `max_length` and pads
them with the pad token up to exactly `max_length` positions. -/
def encode_text (self : WIMLM) (text : String) : List Nat :=
  let toks := (self.lm_tokenizer.tokenize text).take self.max_length
  toks ++ List.replicate (self.max_length - toks.length) self.lm_tokenizer.pad_token_id

/-- Python `list.index(v)`: index of the first occurrence of `v`, `none` where
Python raises `ValueError`. -/
def pyListIndex (xs : List Nat) (v : Nat) : Option Nat :=
  match xs with
  | [] => none
  | x :: rest => if x = v then some 0 else (pyListIndex rest v).map (· + 1)

/-- Insert index `i` into an index list that is sorted by ascending value of
`v`, keeping it sorted. -/
def insertIdxSorted (v : List ℚ) (i : Nat) : List Nat → List Nat
  | [] => [i]
  | j :: rest =>
    if v.getD i 0 ≤ v.getD j 0 then i :: j :: rest else j :: insertIdxSorted v i rest

/-- `torch.argsort` with its default `descending=False`: the indices of `v`
ordered by ascending value. -/
def argsort (v : List ℚ) : List Nat :=
  (List.range v.length).foldr (insertIdxSorted v) []

/-- Source lines 95-99: one iteration body of the candidate loop.  The token
for id `i` is appended to `replacement_words` when it is one word, not a
subword piece, and its probability exceeds `min_confidence`. -/
def candidateStep (self : WIMLM) (probs : List ℚ) (i : Nat)
    (replacement_words : List String) : List String :=
  let token := self.lm_tokenizer.convert_ids_to_tokens i
  if self.is_one_word token && !self.check_if_subword self.masked_lm_name token then
    if probs.getD i 0 > self.min_confidence then replacement_words ++ [token]
    else replacement_words
  else replacement_words

/-- Source lines 93-102: the candidate-selection loop over `ranked_indices`;
after each iteration the loop breaks as soon as
`len(replacement_words) >= max_candidates`. -/
def selectCandidates (self : WIMLM) (probs : List ℚ) :
    List Nat → List String → List String
  | [], replacement_words => replacement_words
  | i :: rest, replacement_words =>
    let acc := candidateStep self probs i replacement_words
    if self.max_candidates ≤ acc.length then acc
    else selectCandidates self probs rest acc

/-- Source lines 77-104 of `_get_new_words`, from the point where the masked
text has been built: encode, look for the mask id (`try ... except ValueError`
becomes the `Option` match), run the language model, index its output (an
out-of-range index is `IndexError`), softmax, argsort, select.  The second
component counts how many times the language-model oracle was invoked. -/
def getNewWordsOnMasked (self : WIMLM) (masked_attacked_text : AttackedText) :
    Except PyErr (List String) × Nat :=
  let ids := encode_text self masked_attacked_text.text
  match pyListIndex ids self.lm_tokenizer.mask_token_id with
  | none => (Except.ok [], 0)
  | some masked_index =>
    let preds := self.language_model ids
    match preds[masked_index]? with
    | none => (Except.error PyErr.indexError, 1)
    | some mask_token_logits =>
      let mask_token_probs := self.softmax mask_token_logits
      let ranked_indices := argsort mask_token_probs
      (Except.ok (selectCandidates self mask_token_probs ranked_indices []), 1)

/-- Source `_get_new_words` (lines 66-104): insert the mask token before word
`index` of `current_text` (producing a new derived text), then proceed on the
masked text. -/
def get_new_words (self : WIMLM) (current_text : AttackedText) (index : Nat) :
    Except PyErr (List String) × Nat :=
  getNewWordsOnMasked self
    (insert_text_before_word_index current_text index self.lm_tokenizer.mask_token)

/-- The encoded input ids `_get_new_words` searches for the mask token. -/
def maskedEncoding (self : WIMLM) (current_text : AttackedText) (index : Nat) : List Nat :=
  encode_text self
    (insert_text_before_word_index current_text index self.lm_tokenizer.mask_token).text

/-- The probability vector at the masked position (softmax of the logit row the
model produced there); `[]` when the mask is truncated out or the model output
is too short. -/
def maskProbs (self : WIMLM) (current_text : AttackedText) (index : Nat) : List ℚ :=
  let ids := maskedEncoding self current_text index
  match pyListIndex ids self.lm_tokenizer.mask_token_id with
  | none => []
  | some masked_index =>
    match (self.language_model ids)[masked_index]? with
    | none => []
    | some mask_token_logits => self.softmax mask_token_logits

/-- The constructor's `masked_language_model` argument is dynamically typed in
the source: either a model-hub name string or an actual model object. -/
inductive MLMArg where
  | name (s : String)
  | model (m : List Nat → List (List ℚ))

/-- Python's builtin `isinstance` applied to a single argument, as on source
line 40 (`isinstance(masked_language_model)`): it requires 2 arguments and
raises `TypeError` before returning any truth value. -/
def isinstanceOneArg (_ : MLMArg) : Except PyErr Bool :=
  Except.error PyErr.typeError

/-- Source lines 46-47: `.to(utils.device)` and `.eval()` on the value stored
in `self._language_model`.  On a model they are device/mode operations with no
effect on the functions modelled here; on a plain string (the else-branch
result when a name was passed) they would raise `AttributeError`. -/
def modelToDeviceEval : MLMArg → Except PyErr MLMArg
  | MLMArg.name _ => Except.error PyErr.attributeError
  | MLMArg.model m => Except.ok (MLMArg.model m)

/-- Python `value.__class__.__name__` for the dynamically typed
`self._language_model` (source line 48). -/
def pyClassName : MLMArg → String
  | MLMArg.name _ => "str"
  | MLMArg.model _ => "AutoModelForMaskedLM"

/-- The attributes `__init__` assigns (source lines 33-48):
`self.max_length`, `self.max_candidates`, `self.min_confidence`,
`self._lm_tokenizer`, `self._language_model`, `self.masked_lm_name`. -/
structure InitFields where
  max_length : Nat
  max_candidates : Nat
  min_confidence : ℚ
  lm_tokenizer : LMTokenizer
  language_model : MLMArg
  masked_lm_name : String

/-- Source `__init__` (lines 24-48), with the external `from_pretrained`
factories passed in as parameters.  The tokenizer is built first; then the
`isinstance` check on line 40 is evaluated (with its single argument); its
boolean decides whether a fresh model is constructed via
`AutoModelForMaskedLM.from_pretrained` or the argument itself is stored. -/
def initWordInsertionMaskedLM
    (autoTokenizerFromPretrained : MLMArg → LMTokenizer)
    (autoModelFromPretrained : MLMArg → List Nat → List (List ℚ))
    (masked_language_model : MLMArg)
    (max_length max_candidates : Nat) (min_confidence : ℚ) :
    Except PyErr InitFields := do
  let lm_tokenizer := autoTokenizerFromPretrained masked_language_model
  let b ← isinstanceOneArg masked_language_model
  let language_model : MLMArg :=
    if b then MLMArg.model (autoModelFromPretrained masked_language_model)
    else masked_language_model
  let language_model ← modelToDeviceEval language_model
  Except.ok
    { max_length := max_length
      max_candidates := max_candidates
      min_confidence := min_confidence
      lm_tokenizer := lm_tokenizer
      language_model := language_model
      masked_lm_name := pyClassName language_model }

/-- Source `extra_repr_keys` (lines 106-107): the literal list it returns.
Note the trailing space inside the first entry. -/
def extra_repr_keys : List String :=
  ["masked_lm_name ", "max_length", "max_candidates", "min_confidence"]

/-- The names of the attributes `__init__` assigns on `self`
(source lines 33, 34, 35, 37, 41/45, 48). -/
def initAssignedAttributeNames : List String :=
  ["max_length", "max_candidates", "min_confidence",
   "_lm_tokenizer", "_language_model", "masked_lm_name"]

/-- Store-passing model of the `AttackedText` heap: live instances addressed
by position in a list.  `insert_text_before_word_index` on the instance at
address `r` allocates the derived text as a fresh instance and returns its
address; per the spec it never updates an existing entry. -/
def insertTextAlloc (store : List AttackedText) (r : Nat) (i : Nat) (s : String) :
    List AttackedText × Nat :=
  (store ++ [insert_text_before_word_index (store.getD r ⟨[]⟩) i s], store.length)

/-- `_get_new_words` in the store-passing model: the mask is inserted through
the store (allocating the masked text), then the computation proceeds on the
allocated instance; the final store is returned alongside the result. -/
def getNewWordsAlloc (self : WIMLM) (store : List AttackedText) (r : Nat) (index : Nat) :
    (Except PyErr (List String) × Nat) × List AttackedText :=
  let p := insertTextAlloc store r index self.lm_tokenizer.mask_token
  (getNewWordsOnMasked self (p.1.getD p.2 ⟨[]⟩), p.1)

/-- A concrete tokenizer: every text encodes to just the mask id, and ids 0
and 1 name the tokens "lo" and "hi". -/
def tokA : LMTokenizer :=
  { mask_token := "[MASK]"
    mask_token_id := 0
    pad_token_id := 7
    tokenize := fun _ => [0]
    convert_ids_to_tokens := fun i => if i = 0 then "lo" else "hi" }

/-- A concrete instance with a two-token vocabulary whose masked-position
scores (under the abstract softmax) are 3 for "lo" and 6 for "hi", against a
confidence threshold of 1. -/
def selfA : WIMLM :=
  { lm_tokenizer := tokA
    language_model := fun ids => ids.map (fun _ => [0, 0])
    masked_lm_name := "AutoModelForMaskedLM"
    max_length := 1
    max_candidates := 5
    min_confidence := 1
    softmax := fun _ => [3, 6]
    is_one_word := fun _ => true
    check_if_subword := fun _ _ => false }

/-- The same instance with `max_candidates = 0`. -/
def selfB : WIMLM :=
  { selfA with max_candidates := 0 }

/-- The same instance with a tokenizer whose output pushes the mask id past
`max_length`, so truncation drops it from the encoded ids. -/
def selfT : WIMLM :=
  { selfA with lm_tokenizer := { tokA with tokenize := fun _ => [1, 0] } }

/-- A concrete two-word input text. -/
def tA : AttackedText := ⟨["the", "movie"]⟩

/-! Helper lemmas about the embedded operations. -/

theorem pyListIndex_eq_none_iff (xs : List Nat) (v : Nat) :
    pyListIndex xs v = none ↔ v ∉ xs := by
  induction xs with
  | nil => simp [pyListIndex]
  | cons x rest ih =>
    by_cases hx : x = v
    · simp [pyListIndex, hx]
    · simp [pyListIndex, hx, Option.map_eq_none', ih, List.mem_cons, Ne.symm hx]

theorem pyListIndex_lt_length (xs : List Nat) (v : Nat) (i : Nat)
    (h : pyListIndex xs v = some i) : i < xs.length := by
  induction xs generalizing i with
  | nil => simp [pyListIndex] at h
  | cons x rest ih =>
    by_cases hx : x = v
    · have h0 : (0 : Nat) = i := by simpa [pyListIndex, hx] using h
      subst h0
      simp
    · simp [pyListIndex, hx, Option.map_eq_some'] at h
      obtain ⟨j, hj, hji⟩ := h
      have := ih j hj
      simp only [List.length_cons]
      omega

theorem pyListIndex_mem_of_some (xs : List Nat) (v : Nat) (i : Nat)
    (h : pyListIndex xs v = some i) : v ∈ xs := by
  by_contra hmem
  rw [(pyListIndex_eq_none_iff xs v).mpr hmem] at h
  exact Option.noConfusion h

theorem encode_text_length (self : WIMLM) (text : String) :
    (encode_text self text).length = self.max_length := by
  unfold encode_text
  simp only [List.length_append, List.length_replicate, List.length_take]
  omega

/-- Branch characterization of `get_new_words`: the mask id was truncated out
of the encoded ids. -/
theorem get_new_words_of_none (self : WIMLM) (t : AttackedText) (index : Nat)
    (hp : pyListIndex (maskedEncoding self t index) self.lm_tokenizer.mask_token_id = none) :
    get_new_words self t index = (Except.ok [], 0) := by
  simp only [maskedEncoding] at hp
  simp [get_new_words, getNewWordsOnMasked, hp]

/-- Branch characterization of `get_new_words`: the mask id was found but the
model's output has no row at the masked position. -/
theorem get_new_words_of_oob (self : WIMLM) (t : AttackedText) (index mi : Nat)
    (hp : pyListIndex (maskedEncoding self t index) self.lm_tokenizer.mask_token_id = some mi)
    (hg : (self.language_model (maskedEncoding self t index))[mi]? = none) :
    get_new_words self t index = (Except.error PyErr.indexError, 1) := by
  simp only [maskedEncoding] at hp hg
  simp [get_new_words, getNewWordsOnMasked, hp, hg]

/-- Branch characterization of `get_new_words`: the mask id was found and the
model produced a logit row at the masked position. -/
theorem get_new_words_of_some (self : WIMLM) (t : AttackedText) (index mi : Nat)
    (logits : List ℚ)
    (hp : pyListIndex (maskedEncoding self t index) self.lm_tokenizer.mask_token_id = some mi)
    (hg : (self.language_model (maskedEncoding self t index))[mi]? = some logits) :
    get_new_words self t index =
      (Except.ok (selectCandidates self (self.softmax logits)
        (argsort (self.softmax logits)) []), 1) := by
  simp only [maskedEncoding] at hp hg
  simp [get_new_words, getNewWordsOnMasked, hp, hg]

theorem maskProbs_of_some (self : WIMLM) (t : AttackedText) (index mi : Nat)
    (logits : List ℚ)
    (hp : pyListIndex (maskedEncoding self t index) self.lm_tokenizer.mask_token_id = some mi)
    (hg : (self.language_model (maskedEncoding self t index))[mi]? = some logits) :
    maskProbs self t index = self.softmax logits := by
  simp [maskProbs, hp, hg]

/-- One loop iteration either leaves the accumulator unchanged or appends the
token of the inspected id, and appends only when all three checks pass. -/
theorem candidateStep_cases (self : WIMLM) (probs : List ℚ) (i : Nat) (acc : List String) :
    candidateStep self probs i acc = acc ∨
      (candidateStep self probs i acc = acc ++ [self.lm_tokenizer.convert_ids_to_tokens i] ∧
        self.is_one_word (self.lm_tokenizer.convert_ids_to_tokens i) = true ∧
        self.check_if_subword self.masked_lm_name
          (self.lm_tokenizer.convert_ids_to_tokens i) = false ∧
        probs.getD i 0 > self.min_confidence) := by
  unfold candidateStep
  by_cases h1 : (self.is_one_word (self.lm_tokenizer.convert_ids_to_tokens i) &&
      !self.check_if_subword self.masked_lm_name
        (self.lm_tokenizer.convert_ids_to_tokens i)) = true
  · rw [if_pos h1]
    by_cases h2 : probs.getD i 0 > self.min_confidence
    · rw [if_pos h2]
      rw [Bool.and_eq_true, Bool.not_eq_true'] at h1
      exact Or.inr ⟨rfl, h1.1, h1.2, h2⟩
    · rw [if_neg h2]
      exact Or.inl rfl
  · rw [if_neg h1]
    exact Or.inl rfl

theorem candidateStep_length_le (self : WIMLM) (probs : List ℚ) (i : Nat) (acc : List String) :
    (candidateStep self probs i acc).length ≤ acc.length + 1 := by
  rcases candidateStep_cases self probs i acc with h | ⟨h, _⟩ <;> simp [h]

theorem selectCandidates_length_le (self : WIMLM) (probs : List ℚ) (ids : List Nat) :
    ∀ acc : List String, acc.length < self.max_candidates →
      (selectCandidates self probs ids acc).length ≤ self.max_candidates := by
  induction ids with
  | nil =>
    intro acc h
    exact Nat.le_of_lt h
  | cons i rest ih =>
    intro acc h
    rw [selectCandidates]
    have hstep := candidateStep_length_le self probs i acc
    split
    · omega
    · next hlt =>
      exact ih (candidateStep self probs i acc) (by omega)

/-- Every word the loop produces was already accumulated or passed all three
checks with its probability above the threshold. -/
theorem selectCandidates_mem (self : WIMLM) (probs : List ℚ) (ids : List Nat) :
    ∀ (acc : List String) (w : String), w ∈ selectCandidates self probs ids acc →
      w ∈ acc ∨ ∃ i, self.lm_tokenizer.convert_ids_to_tokens i = w ∧
        self.is_one_word w = true ∧
        self.check_if_subword self.masked_lm_name w = false ∧
        probs.getD i 0 > self.min_confidence := by
  induction ids with
  | nil =>
    intro acc w hw
    exact Or.inl hw
  | cons i rest ih =>
    intro acc w hw
    rw [selectCandidates] at hw
    have hmem : w ∈ candidateStep self probs i acc →
        w ∈ acc ∨ ∃ j, self.lm_tokenizer.convert_ids_to_tokens j = w ∧
          self.is_one_word w = true ∧
          self.check_if_subword self.masked_lm_name w = false ∧
          probs.getD j 0 > self.min_confidence := by
      intro hin
      rcases candidateStep_cases self probs i acc with he | ⟨he, h1, h2, h3⟩
      · exact Or.inl (he ▸ hin)
      · rw [he] at hin
        rcases List.mem_append.mp hin with hin | hin
        · exact Or.inl hin
        · have hw' : self.lm_tokenizer.convert_ids_to_tokens i = w :=
            (List.mem_singleton.mp hin).symm
          exact Or.inr ⟨i, hw', hw' ▸ h1, hw' ▸ h2, h3⟩
    split at hw
    · exact hmem hw
    · rcases ih (candidateStep self probs i acc) w hw with hacc | hex
      · exact hmem hacc
      · exact Or.inr hex

/-! Claim theorems. -/

/-- C1: for every current_text and index, if after encoding (with truncation
to max_length) the mask token id does not occur in the encoded input ids,
`_get_new_words` returns the empty sequence (with zero model calls) and raises
no exception: the truncation case is handled as "no candidates", never as an
unhandled fault. -/
theorem truncated_mask_yields_empty_no_exception (self : WIMLM)
    (current_text : AttackedText) (index : Nat)
    (h : self.lm_tokenizer.mask_token_id ∉ maskedEncoding self current_text index) :
    get_new_words self current_text index = (Except.ok [], 0) :=
  get_new_words_of_none self current_text index ((pyListIndex_eq_none_iff _ _).mpr h)

/-- Witness for C1: a concrete configuration whose tokenizer output pushes the
mask id past max_length, so it is truncated out of the encoded ids. -/
theorem truncated_mask_yields_empty_no_exception_witness :
    selfT.lm_tokenizer.mask_token_id ∉ maskedEncoding selfT tA 0 ∧
      get_new_words selfT tA 0 = (Except.ok [], 0) :=
  ⟨by decide, truncated_mask_yields_empty_no_exception selfT tA 0 (by decide)⟩

/-- C2 is false on the code: `torch.argsort` is called without
`descending=True`, so candidate ids are visited in ascending probability
order.  At this concrete input the returned list is ["lo", "hi"] although the
masked-position probability of "lo" (position 0 of the list) is strictly
smaller than that of "hi" (position 1), contradicting descending order. -/
theorem get_new_words_ascending_order_on_concrete_input :
    get_new_words selfA tA 0 = (Except.ok ["lo", "hi"], 1) ∧
      selfA.lm_tokenizer.convert_ids_to_tokens 0 = "lo" ∧
      selfA.lm_tokenizer.convert_ids_to_tokens 1 = "hi" ∧
      (maskProbs selfA tA 0).getD 0 0 < (maskProbs selfA tA 0).getD 1 0 :=
  ⟨rfl, rfl, rfl, by decide⟩

/-- C3 counterexample: with an already-constructed model object as argument,
the constructor does not complete; the malformed single-argument `isinstance`
call raises `TypeError`. -/
theorem init_with_model_object_raises_typeerror :
    initWordInsertionMaskedLM (fun _ => tokA) (fun _ => selfA.language_model)
        (MLMArg.model selfA.language_model) 512 50 1 =
      Except.error PyErr.typeError := rfl

/-- C3 (amended): for every constructor call, the `isinstance` check guarding
model-vs-name initialization is called with a single argument and raises
`TypeError`, so construction never completes (for a name argument just as for
a model object), and neither initialization branch runs. -/
theorem init_always_raises_typeerror
    (autoTokenizerFromPretrained : MLMArg → LMTokenizer)
    (autoModelFromPretrained : MLMArg → List Nat → List (List ℚ))
    (masked_language_model : MLMArg)
    (max_length max_candidates : Nat) (min_confidence : ℚ) :
    initWordInsertionMaskedLM autoTokenizerFromPretrained autoModelFromPretrained
        masked_language_model max_length max_candidates min_confidence =
      Except.error PyErr.typeError := rfl

/-- C4 counterexample: with `max_candidates = 0` the loop appends a candidate
before the break check runs, so the returned list has one entry, more than
`max_candidates`. -/
theorem max_candidates_zero_returns_one_entry :
    selfB.max_candidates = 0 ∧ get_new_words selfB tA 0 = (Except.ok ["lo"], 1) ∧
      ¬ (["lo"] : List String).length ≤ selfB.max_candidates :=
  ⟨rfl, rfl, by decide⟩

/-- C4 (amended): for every call with `max_candidates = k ≥ 1`, a returned
list has at most `k` entries (for `k = 0` the post-append break allows one
entry). -/
theorem get_new_words_length_le_max_candidates (self : WIMLM)
    (current_text : AttackedText) (index : Nat) (ws : List String) (n : Nat)
    (hk : 1 ≤ self.max_candidates)
    (h : get_new_words self current_text index = (Except.ok ws, n)) :
    ws.length ≤ self.max_candidates := by
  cases hp : pyListIndex (maskedEncoding self current_text index)
      self.lm_tokenizer.mask_token_id with
  | none =>
    rw [get_new_words_of_none self current_text index hp] at h
    obtain ⟨h1, h2⟩ := Prod.mk.injEq .. ▸ h
    obtain rfl : ws = [] := (Except.ok.injEq .. ▸ h1).symm
    simp
  | some mi =>
    cases hg : (self.language_model (maskedEncoding self current_text index))[mi]? with
    | none =>
      rw [get_new_words_of_oob self current_text index mi hp hg] at h
      exact absurd (Prod.mk.injEq .. ▸ h).1 (by simp)
    | some logits =>
      rw [get_new_words_of_some self current_text index mi logits hp hg] at h
      obtain ⟨h1, h2⟩ := Prod.mk.injEq .. ▸ h
      obtain rfl : ws = selectCandidates self (self.softmax logits)
          (argsort (self.softmax logits)) [] := (Except.ok.injEq .. ▸ h1).symm
      exact selectCandidates_length_le self _ _ [] (by simpa using hk)

/-- Witness for C4 (amended) at a concrete input with `max_candidates = 5`. -/
theorem get_new_words_length_le_max_candidates_witness :
    1 ≤ selfA.max_candidates ∧ (["lo", "hi"] : List String).length ≤ selfA.max_candidates :=
  ⟨by decide,
    get_new_words_length_le_max_candidates selfA tA 0 ["lo", "hi"] 1 (by decide) rfl⟩

/-- C5: every word in a returned list is the token of some vocabulary id whose
softmax probability at the masked position strictly exceeds `min_confidence`. -/
theorem returned_words_exceed_min_confidence (self : WIMLM)
    (current_text : AttackedText) (index : Nat) (ws : List String) (n : Nat)
    (h : get_new_words self current_text index = (Except.ok ws, n)) :
    ∀ w ∈ ws, ∃ i, self.lm_tokenizer.convert_ids_to_tokens i = w ∧
      (maskProbs self current_text index).getD i 0 > self.min_confidence := by
  intro w hw
  cases hp : pyListIndex (maskedEncoding self current_text index)
      self.lm_tokenizer.mask_token_id with
  | none =>
    rw [get_new_words_of_none self current_text index hp] at h
    obtain rfl : ws = [] := (Except.ok.injEq .. ▸ (Prod.mk.injEq .. ▸ h).1).symm
    exact absurd hw (List.not_mem_nil w)
  | some mi =>
    cases hg : (self.language_model (maskedEncoding self current_text index))[mi]? with
    | none =>
      rw [get_new_words_of_oob self current_text index mi hp hg] at h
      exact absurd (Prod.mk.injEq .. ▸ h).1 (by simp)
    | some logits =>
      rw [get_new_words_of_some self current_text index mi logits hp hg] at h
      obtain rfl : ws = selectCandidates self (self.softmax logits)
          (argsort (self.softmax logits)) [] :=
        (Except.ok.injEq .. ▸ (Prod.mk.injEq .. ▸ h).1).symm
      rcases selectCandidates_mem self (self.softmax logits)
          (argsort (self.softmax logits)) [] w hw with hnil | ⟨i, hi, _, _, hgt⟩
      · exact absurd hnil (List.not_mem_nil w)
      · refine ⟨i, hi, ?_⟩
        rw [maskProbs_of_some self current_text index mi logits hp hg]
        exact hgt

/-- Witness for C5: in the concrete run the word "lo" comes from id 0 with
probability 3 above the threshold 1. -/
theorem returned_words_exceed_min_confidence_witness :
    get_new_words selfA tA 0 = (Except.ok ["lo", "hi"], 1) ∧
      ∃ i, selfA.lm_tokenizer.convert_ids_to_tokens i = "lo" ∧
        (maskProbs selfA tA 0).getD i 0 > selfA.min_confidence :=
  ⟨rfl, returned_words_exceed_min_confidence selfA tA 0 ["lo", "hi"] 1 rfl "lo"
    (by decide)⟩

/-- C6: every word in a returned list passed `utils.is_one_word` and was not
flagged by `utils.check_if_subword` for the model in use. -/
theorem returned_words_one_word_not_subword (self : WIMLM)
    (current_text : AttackedText) (index : Nat) (ws : List String) (n : Nat)
    (h : get_new_words self current_text index = (Except.ok ws, n)) :
    ∀ w ∈ ws, self.is_one_word w = true ∧
      self.check_if_subword self.masked_lm_name w = false := by
  intro w hw
  cases hp : pyListIndex (maskedEncoding self current_text index)
      self.lm_tokenizer.mask_token_id with
  | none =>
    rw [get_new_words_of_none self current_text index hp] at h
    obtain rfl : ws = [] := (Except.ok.injEq .. ▸ (Prod.mk.injEq .. ▸ h).1).symm
    exact absurd hw (List.not_mem_nil w)
  | some mi =>
    cases hg : (self.language_model (maskedEncoding self current_text index))[mi]? with
    | none =>
      rw [get_new_words_of_oob self current_text index mi hp hg] at h
      exact absurd (Prod.mk.injEq .. ▸ h).1 (by simp)
    | some logits =>
      rw [get_new_words_of_some self current_text index mi logits hp hg] at h
      obtain rfl : ws = selectCandidates self (self.softmax logits)
          (argsort (self.softmax logits)) [] :=
        (Except.ok.injEq .. ▸ (Prod.mk.injEq .. ▸ h).1).symm
      rcases selectCandidates_mem self (self.softmax logits)
          (argsort (self.softmax logits)) [] w hw with hnil | ⟨i, _, h1, h2, _⟩
      · exact absurd hnil (List.not_mem_nil w)
      · exact ⟨h1, h2⟩

/-- Witness for C6 at the concrete run, for the returned word "hi". -/
theorem returned_words_one_word_not_subword_witness :
    get_new_words selfA tA 0 = (Except.ok ["lo", "hi"], 1) ∧
      selfA.is_one_word "hi" = true ∧
      selfA.check_if_subword selfA.masked_lm_name "hi" = false :=
  ⟨rfl, returned_words_one_word_not_subword selfA tA 0 ["lo", "hi"] 1 rfl "hi"
    (by decide)⟩

/-- C7: the masked-language-model oracle is invoked at most once per
`_get_new_words` call: exactly once when the mask token survives truncation in
the encoded ids, and zero times (with the early empty return) when it is
truncated out. -/
theorem language_model_called_at_most_once (self : WIMLM)
    (current_text : AttackedText) (index : Nat) :
    (get_new_words self current_text index).2 ≤ 1 ∧
      (self.lm_tokenizer.mask_token_id ∈ maskedEncoding self current_text index →
        (get_new_words self current_text index).2 = 1) ∧
      (self.lm_tokenizer.mask_token_id ∉ maskedEncoding self current_text index →
        get_new_words self current_text index = (Except.ok [], 0)) := by
  cases hp : pyListIndex (maskedEncoding self current_text index)
      self.lm_tokenizer.mask_token_id with
  | none =>
    have h0 := get_new_words_of_none self current_text index hp
    have hmem := (pyListIndex_eq_none_iff _ _).mp hp
    rw [h0]
    exact ⟨by simp, fun hin => absurd hin hmem, fun _ => rfl⟩
  | some mi =>
    have hmem := pyListIndex_mem_of_some _ _ _ hp
    cases hg : (self.language_model (maskedEncoding self current_text index))[mi]? with
    | none =>
      rw [get_new_words_of_oob self current_text index mi hp hg]
      exact ⟨Nat.le_refl 1, fun _ => rfl, fun hnot => absurd hmem hnot⟩
    | some logits =>
      rw [get_new_words_of_some self current_text index mi logits hp hg]
      exact ⟨Nat.le_refl 1, fun _ => rfl, fun hnot => absurd hmem hnot⟩

/-- Witness for C7: in the concrete run the mask survives encoding and the
oracle is called exactly once. -/
theorem language_model_called_at_most_once_witness :
    selfA.lm_tokenizer.mask_token_id ∈ maskedEncoding selfA tA 0 ∧
      (get_new_words selfA tA 0).2 = 1 :=
  ⟨by decide, (language_model_called_at_most_once selfA tA 0).2.1 (by decide)⟩

/-- C8: in the store-passing model, `_get_new_words` never mutates any live
`AttackedText`: the final store extends the initial one (every pre-existing
instance, in particular `current_text` at address `r`, is unchanged at its
address), the mask is inserted only into the freshly allocated derived text,
and the result is that of the pure computation on the current text. -/
theorem get_new_words_never_mutates_current_text (self : WIMLM)
    (store : List AttackedText) (r : Nat) (index : Nat) :
    (getNewWordsAlloc self store r index).2 =
        store ++ [insert_text_before_word_index (store.getD r ⟨[]⟩) index
          self.lm_tokenizer.mask_token] ∧
      (∀ j, j < store.length →
        ((getNewWordsAlloc self store r index).2)[j]? = store[j]?) ∧
      (getNewWordsAlloc self store r index).1 =
        get_new_words self (store.getD r ⟨[]⟩) index := by
  refine ⟨rfl, ?_, ?_⟩
  · intro j hj
    exact List.getElem?_append_left hj
  · show getNewWordsOnMasked self
      ((store ++ [insert_text_before_word_index (store.getD r ⟨[]⟩) index
        self.lm_tokenizer.mask_token]).getD store.length ⟨[]⟩) = _
    rw [List.getD_eq_getElem?_getD, List.getElem?_concat_length]
    rfl

/-- Witness for C8: the pre-existing instance at address 0 is untouched by the
call. -/
theorem get_new_words_never_mutates_current_text_witness :
    0 < ([tA] : List AttackedText).length ∧
      ((getNewWordsAlloc selfA [tA] 0 0).2)[0]? = ([tA] : List AttackedText)[0]? :=
  ⟨by decide, (get_new_words_never_mutates_current_text selfA [tA] 0 0).2.1 0 (by decide)⟩

/-- C9: `extra_repr_keys` returns exactly the four-element literal list whose
first entry carries a trailing space, and that first entry does not name any
attribute `__init__` assigns, so not every returned key names an existing
attribute. -/
theorem extra_repr_keys_exact_with_phantom_first_key :
    extra_repr_keys =
        ["masked_lm_name ", "max_length", "max_candidates", "min_confidence"] ∧
      extra_repr_keys.length = 4 ∧
      "masked_lm_name " ∉ initAssignedAttributeNames ∧
      ¬ (∀ k ∈ extra_repr_keys, k ∈ initAssignedAttributeNames) := by
  refine ⟨rfl, rfl, by decide, fun hall => ?_⟩
  exact absurd (hall "masked_lm_name " (by decide)) (by decide)

/-- C10: the encoding pads and truncates to exactly `max_length` positions,
and whenever the mask id is found at position `mi` of the encoded ids, `mi` is
in bounds for the model's per-token logits (whose length equals the input
length), so the logit lookup never goes out of bounds and `_get_new_words`
never raises `IndexError`. -/
theorem masked_index_in_bounds (self : WIMLM) (current_text : AttackedText)
    (index : Nat)
    (hshape : ∀ ids, (self.language_model ids).length = ids.length) :
    (maskedEncoding self current_text index).length = self.max_length ∧
      ∀ mi, pyListIndex (maskedEncoding self current_text index)
          self.lm_tokenizer.mask_token_id = some mi →
        mi < (self.language_model (maskedEncoding self current_text index)).length ∧
          (get_new_words self current_text index).1 ≠ Except.error PyErr.indexError := by
  refine ⟨encode_text_length self _, fun mi hmi => ?_⟩
  have hlt : mi < (maskedEncoding self current_text index).length :=
    pyListIndex_lt_length _ _ _ hmi
  have hlt2 : mi <
      (self.language_model (maskedEncoding self current_text index)).length := by
    rw [hshape]
    exact hlt
  refine ⟨hlt2, ?_⟩
  rw [get_new_words_of_some self current_text index mi
    ((self.language_model (maskedEncoding self current_text index))[mi]) hmi
    (List.getElem?_eq_getElem hlt2)]
  simp

/-- Witness for C10 at the concrete instance whose model emits one logit row
per input position. -/
theorem masked_index_in_bounds_witness :
    (∀ ids, (selfA.language_model ids).length = ids.length) ∧
      pyListIndex (maskedEncoding selfA tA 0) selfA.lm_tokenizer.mask_token_id = some 0 ∧
      0 < (selfA.language_model (maskedEncoding selfA tA 0)).length :=
  ⟨fun ids => by simp [selfA], by decide,
    ((masked_index_in_bounds selfA tA 0 (fun ids => by simp [selfA])).2 0 (by decide)).1⟩

end WordInsertionMaskedLMSpec
